/-
Verification of the TDT tank reader (neo/rawio/tdtrawio.py).

The development shallowly embeds the parts of the reader that the claims
are about: the fixed-layout TSQ index records, the TBK channel-group
descriptors, the open-time consistency checks, the sort-code overlay, the
segment sentinel timestamps, the event-record selection, and the
chunk-boundary-aware analog-signal extraction.

Conventions of the embedding:
 - numpy byte buffers are lists of natural numbers (one per byte);
 - a value of a dtype with itemsize w is represented as the list of its
   w bytes, so reinterpreting a byte slice as dtype elements groups the
   bytes in runs of w;
 - float64 timestamps and float32 frequencies are represented as rationals
   (an undefined, not-a-number timestamp is Option.none where relevant);
 - python exceptions are an Except value: raising propagates, a
   try/except block pattern-matches on the error kind.
-/
import Mathlib

/-- Python exception kinds raised by the code paths under study. -/
inductive PyError
  | osError
  | valueError
  | indexError
deriving DecidableEq, Repr

instance exceptDecEq {ε α : Type} [DecidableEq ε] [DecidableEq α] :
    DecidableEq (Except ε α) := fun x y =>
  match x, y with
  | .ok a, .ok b =>
      if h : a = b then .isTrue (by rw [h])
      else .isFalse (by intro hc; cases hc; exact h rfl)
  | .error a, .error b =>
      if h : a = b then .isTrue (by rw [h])
      else .isFalse (by intro hc; cases hc; exact h rfl)
  | .ok _, .error _ => .isFalse (by intro hc; cases hc)
  | .error _, .ok _ => .isFalse (by intro hc; cases hc)

/-- One record of the TSQ index file (dtype tsq_dtype in the source):
size int32, evtype int32, evname S4, channel uint16, sortcode uint16,
timestamp float64, offset int64, dataformat int32, frequency float32.
The S4 name is kept as its meaningful bytes (numpy strips trailing NULs). -/
structure IndexRecord where
  size : Int
  evtype : Int
  evname : List Nat
  channel : Nat
  sortcode : Nat
  timestamp : ℚ
  offset : Int
  dataformat : Int
  frequency : ℚ
deriving DecidableEq, Repr

instance : Inhabited IndexRecord := ⟨⟨0, 0, [], 0, 0, 0, 0, 0, 0⟩⟩

/-- One TBK channel-group descriptor (tbk_field_types in the source). -/
structure ChanGroupInfo where
  storeName : List Nat
  headName : List Nat
  enabled : Bool
  circType : Int
  numChan : Nat
  strobeMode : Int
  tankEvType : Int
  numPoints : Nat
  dataFormat : Int
  sampleFreq : ℚ
deriving DecidableEq, Repr

instance : Inhabited ChanGroupInfo := ⟨⟨[], [], false, 0, 0, 0, 0, 0, 0, 0⟩⟩

/-- Event-type tag of stream records. -/
def EVTYPE_STREAM : Int := 33025

/-- Event-type tag of the stream variant records. -/
def EVTYPE_STREAM_VARIANT : Int := 33041

/-- Event-type tag of snippet records. -/
def EVTYPE_SNIP : Int := 33281

/-- Event-type tag of onset event records. -/
def EVTYPE_STRON : Int := 257

/-- Reserved evname byte marking the start-of-block sentinel record. -/
def EVMARK_STARTBLOCK : Nat := 1

/-- Reserved evname byte marking the end-of-block sentinel record. -/
def EVMARK_STOPBLOCK : Nat := 2

/-- Ceiling division on naturals, the value of int(np.ceil(a / b)) for the
sizes that occur here (exact in float64). -/
def ceilDiv (a b : Nat) : Nat := (a + b - 1) / b

/-- Reinterpret a byte list as elements of itemsize w, the effect of
numpy .view(dt) on the sliced chunk bytes: consecutive runs of w bytes. -/
def viewElems (w : Nat) (bytes : List Nat) : List (List Nat) :=
  (List.range (bytes.length / w)).map (fun i => (bytes.drop (i * w)).take w)

/-- Python list slicing data[:-border] for an integer border, as used for
the right-border cut: a positive border drops the last border elements,
border = 0 yields the empty list, a negative border keeps the first
-border elements. -/
def pyTrimTail {α : Type} (l : List α) (border : Int) : List α :=
  if 0 < border then l.take (l.length - border.toNat)
  else if border = 0 then [] else l.take (-border).toNat

/-- The right-border cut of the source: border = data.size - i_stop mod
sample_per_chunk, and the data is cut to data[:-border] unless border
equals the chunk length. -/
def rightTrim (spc iStop : Nat) (data : List (List Nat)) : List (List Nat) :=
  let border : Int := (data.length : Int) - ((iStop % spc : Nat) : Int)
  if border ≠ (data.length : Int) then pyTrimTail data border else data

/-- Both border cuts applied to the chunk with index bl exactly as in the
source loop: the right cut when bl is the last overlapping chunk, then
the left cut (drop of i_start mod sample_per_chunk) when bl is the first. -/
def processChunk (spc iStart iStop bl0 bl1 bl : Nat) (data : List (List Nat)) :
    List (List Nat) :=
  let d1 := if bl = bl1 - 1 then rightTrim spc iStop data else data
  if bl = bl0 then d1.drop (iStart % spc) else d1

/-- The numpy assignment raw[ind : ind + data.length] = data on a 1-d
column: the left slice clips at the array length, and the assignment
raises ValueError when the clipped slice and data lengths differ. -/
def writeSlice {α : Type} (raw : List α) (ind : Nat) (data : List α) :
    Except PyError (List α) :=
  if ind + data.length ≤ raw.length then
    .ok (raw.take ind ++ data ++ raw.drop (ind + data.length))
  else .error .valueError

/-- The chunk piece the source loop writes for block index bl. -/
def chunkPiece (dataIndex : List IndexRecord) (dataBuf : List Nat)
    (w spc iStart iStop bl0 bl1 bl : Nat) : List (List Nat) :=
  processChunk spc iStart iStop bl0 bl1 bl
    (viewElems w
      ((dataBuf.drop (dataIndex.getD bl default).offset.toNat).take (spc * w)))

/-- The per-channel loop body of _get_analogsignal_chunk: for each data
block index bl in order, look up the record's byte offset, slice
sample_per_chunk times itemsize bytes, reinterpret as elements, apply the
border cuts, write into the output column at the running index.
Indexing past the chunk index raises IndexError; a slice whose byte count
is not a multiple of the itemsize would make the numpy view raise
ValueError. Negative byte offsets are outside the modelled behaviour
(theorems assume offsets are nonnegative). -/
def fillLoop (dataIndex : List IndexRecord) (dataBuf : List Nat)
    (w spc iStart iStop bl0 bl1 : Nat) :
    List Nat → Nat → List (List Nat) → Except PyError (List (List Nat))
  | [], _, raw => .ok raw
  | bl :: rest, ind, raw =>
    if bl < dataIndex.length then
      if ((dataBuf.drop (dataIndex.getD bl default).offset.toNat).take
          (spc * w)).length % w = 0 then
        let data := chunkPiece dataIndex dataBuf w spc iStart iStop bl0 bl1 bl
        match writeSlice raw ind data with
        | .ok raw2 =>
          fillLoop dataIndex dataBuf w spc iStart iStop bl0 bl1 rest
            (ind + data.length) raw2
        | .error e => .error e
      else .error .valueError
    else .error .indexError

/-- One channel column of _get_analogsignal_chunk: a zero-filled column of
i_stop - i_start rows of itemsize w, filled chunk by chunk over the block
range bl0 = i_start div spc to bl1 = ceil(i_stop / spc) exclusive. -/
def readChannelColumn (dataIndex : List IndexRecord) (dataBuf : List Nat)
    (w spc iStart iStop : Nat) : Except PyError (List (List Nat)) :=
  let bl0 := iStart / spc
  let bl1 := ceilDiv iStop spc
  fillLoop dataIndex dataBuf w spc iStart iStop bl0 bl1
    (List.range' bl0 (bl1 - bl0)) 0
    (List.replicate (iStop - iStart) (List.replicate w 0))

/-- The channel loop of _get_analogsignal_chunk: each selected channel of
the stream contributes one output column, computed from that channel's
chunk index and data buffer. The output is kept column-major (one list
per channel); all columns share the group itemsize w and chunk size spc. -/
def getAnalogsignalChunk (channels : List (List IndexRecord × List Nat))
    (w spc iStart iStop : Nat) : Except PyError (List (List (List Nat))) :=
  match channels with
  | [] => .ok []
  | ch :: rest => do
    let col ← readChannelColumn ch.1 ch.2 w spc iStart iStop
    let cols ← getAnalogsignalChunk rest w spc iStart iStop
    .ok (col :: cols)

/-- C1 scenario chunk index: one stream channel, 4 chunks of 256 one-byte
samples, chunk bl recorded at byte offset 256 * bl. -/
def c1Record (off : Int) : IndexRecord :=
  { size := 40, evtype := EVTYPE_STREAM, evname := [87, 97, 118],
    channel := 1, sortcode := 0, timestamp := 0, offset := off,
    dataformat := 3, frequency := 1 }

/-- The four chunk records of the C1 scenario. -/
def c1Index : List IndexRecord :=
  [c1Record 0, c1Record 256, c1Record 512, c1Record 768]

/-- The C1 backing buffer: 1024 bytes holding the sample values 0..1023. -/
def c1Buf : List Nat := List.range 1024

/-- Chunk bl of the C1 scenario viewed as its 256 one-byte samples. -/
def c1Chunk (bl : Nat) : List (List Nat) :=
  viewElems 1 ((c1Buf.drop (256 * bl)).take 256)

/-- The output the claim describes literally: chunk 1 with 44 samples
trimmed from its start, then chunk 2 with 24 samples trimmed from its
end (256 - 24 = 232 samples kept). -/
def c1ClaimedOutput : List (List Nat) :=
  (c1Chunk 1).drop 44 ++ (c1Chunk 2).take (256 - 24)

/-- The output the code actually produces for samples 300 to 600: chunk 1
with 44 samples trimmed from its start, then chunk 2 with 168 samples
trimmed from its end (only its first 88 = 600 mod 256 samples kept). -/
def c1ActualOutput : List (List Nat) :=
  (c1Chunk 1).drop 44 ++ (c1Chunk 2).take 88

/-- Trim of the final overlapping chunk as the claim words it: samples of
the last chunk beyond position sample_stop mod chunk_size are dropped;
when sample_stop is chunk-aligned the last chunk ends exactly at
sample_stop and nothing is dropped. -/
def specTrimLast (spc iStop : Nat) (elems : List (List Nat)) : List (List Nat) :=
  if iStop % spc = 0 then elems else elems.take (iStop % spc)

/-- One overlapping chunk as the claim describes it: slice chunk_size
times element_width bytes at the chunk's recorded byte offset,
reinterpret as elements, trim the trailing samples when the chunk is the
last overlapping one, and trim the leading sample_start mod chunk_size
samples when it is the first. -/
def specPiece (dataIndex : List IndexRecord) (dataBuf : List Nat)
    (w spc iStart iStop bl0 bl1 bl : Nat) : List (List Nat) :=
  let elems := viewElems w
    ((dataBuf.drop (dataIndex.getD bl default).offset.toNat).take (spc * w))
  let e2 := if bl = bl1 - 1 then specTrimLast spc iStop elems else elems
  if bl = bl0 then e2.drop (iStart % spc) else e2

/-- Modelled on the claim wording, as refinement target: the overlapping
chunks are the indices from sample_start div chunk_size up to exclusive
ceil(sample_stop / chunk_size); each is sliced, reinterpreted and trimmed
at the borders, and the trimmed chunks are concatenated in order. -/
def specChunkColumn (dataIndex : List IndexRecord) (dataBuf : List Nat)
    (w spc iStart iStop : Nat) : List (List Nat) :=
  ((List.range' (iStart / spc) (ceilDiv iStop spc - iStart / spc)).map
    (specPiece dataIndex dataBuf w spc iStart iStop (iStart / spc)
      (ceilDiv iStop spc))).flatten

/-- Concrete two-channel stream group used as the C2 witness: two chunks
of two 2-byte samples per channel, with the channels storing their chunks
at opposite ends of an 8-byte buffer. -/
def c2Channels : List (List IndexRecord × List Nat) :=
  [([c1Record 0, c1Record 4], List.range 8),
   ([c1Record 4, c1Record 0], List.range 8)]

/-- Model of the overlay directory as the code observes it: the outcome
of os.listdir on the path sort/<sortname> (the error case is an OSError,
such as a missing directory), and the int8 bytes np.fromfile reads from a
named file inside it. -/
structure SortDirFS where
  listing : Except Unit (List String)
  fileBytes : String → List Int

/-- The numpy unsafe cast of an int8 sort label into the uint16 sortcode
field: reduction modulo 2 to the 16. -/
def castInt8ToUint16 (x : Int) : Nat := (x % 65536).toNat

/-- Elementwise effect of the numpy slice assignment of the new sortcodes
into records 1 through n - 2 (0-based), walking the record list with its
running index i. -/
def overwriteSortcodesFrom (codes : List Int) (n : Nat) :
    Nat → List IndexRecord → List IndexRecord
  | _, [] => []
  | i, r :: rest =>
    (if 1 ≤ i ∧ i + 1 < n then
      { r with sortcode := castInt8ToUint16 (codes.getD (i - 1) 0) } else r)
      :: overwriteSortcodesFrom codes n (i + 1) rest

/-- The numpy assignment of the overlay labels onto the sortcode field of
all records except the first and the last. -/
def overwriteSortcodes (tsq : List IndexRecord) (codes : List Int) :
    List IndexRecord :=
  overwriteSortcodesFrom codes tsq.length 0 tsq

/-- The python str.endswith suffix test for .SortResult file names,
computed on the character list. -/
def isSortResultFile (f : String) : Bool :=
  decide (f.data.reverse.take 11 = ".SortResult".data.reverse)

/-- The sort overlay step of _parse_header: when a sortname is given, list
the overlay directory (an OSError is swallowed by the except clause and
leaves the records unchanged), take the first file ending in .SortResult,
drop its 1024 header bytes, and assign the remaining labels over the
sortcode fields of the non-sentinel records; the numpy assignment demands
matching length (a single label broadcasts), and any other length raises
an uncaught ValueError. -/
def applySortOverlay (sortname : String) (fs : SortDirFS)
    (tsq : List IndexRecord) : Except PyError (List IndexRecord) :=
  if sortname = "" then .ok tsq
  else
    match fs.listing with
    | .error _ => .ok tsq
    | .ok files =>
      match files.find? isSortResultFile with
      | none => .ok tsq
      | some f =>
        let newsortcode := (fs.fileBytes f).drop 1024
        if newsortcode.length = tsq.length - 2 then
          .ok (overwriteSortcodes tsq newsortcode)
        else if newsortcode.length = 1 then
          .ok (overwriteSortcodes tsq
            (List.replicate (tsq.length - 2) (newsortcode.getD 0 0)))
        else .error .valueError

/-- An index record with a given sortcode, used in overlay scenarios. -/
def mkSortRec (code : Nat) : IndexRecord :=
  { size := 40, evtype := EVTYPE_SNIP, evname := [83, 112, 107],
    channel := 1, sortcode := code, timestamp := 0, offset := 0,
    dataformat := 0, frequency := 1 }

/-- A five-record index: two sentinels and three snippet records. -/
def c4Tsq : List IndexRecord :=
  [mkSortRec 0, mkSortRec 7, mkSortRec 7, mkSortRec 7, mkSortRec 0]

/-- Overlay directory holding one SortResult file whose payload has two
labels after the 1024-byte header, although three non-sentinel records
exist. -/
def c4Fs : SortDirFS :=
  { listing := .ok ["spikes.SortResult"],
    fileBytes := fun _ => List.replicate 1024 0 ++ [2, 3] }

/-- Overlay directory whose listing raises an OSError. -/
def c4FsErr : SortDirFS :=
  { listing := .error (), fileBytes := fun _ => [] }

/-- A four-record index for the C5 witness. -/
def c5Tsq : List IndexRecord :=
  [mkSortRec 1, mkSortRec 9, mkSortRec 9, mkSortRec 2]

/-- Overlay directory for the C5 witness: the SortResult file is not the
first directory entry, and carries exactly one label per non-sentinel
record after the header. -/
def c5Fs : SortDirFS :=
  { listing := .ok ["notes.txt", "spikes.SortResult"],
    fileBytes := fun f =>
      if f = "spikes.SortResult" then List.replicate 1024 0 ++ [2, 3] else [] }

/-- The accumulator pattern of _parse_header loops that keep the first
computed value and assert equality for every later one: the accumulator
starts empty, the first element fills it, and each further element is
asserted equal to the stored one, raising an AssertionError otherwise. -/
def assertAllEqLoop {β : Type} [DecidableEq β] (msg : String) :
    Option β → List β → Except String (Option β)
  | acc, [] => .ok acc
  | none, g :: rest => assertAllEqLoop msg (some g) rest
  | some g0, g :: rest =>
    if g0 = g then assertAllEqLoop msg (some g0) rest else .error msg

/-- The TBK parse loop of _parse_header: read_tbk is invoked once per
segment name, in order. -/
def parseAllSegments (read_tbk : String → List ChanGroupInfo)
    (segmentNames : List String) : List (List ChanGroupInfo) :=
  segmentNames.map read_tbk

/-- The open-time consistency check over the per-segment descriptor
tables: the first table is kept and every later one is asserted equal to
it. -/
def checkTbkAcrossSegments (parsed : List (List ChanGroupInfo)) :
    Except String (Option (List ChanGroupInfo)) :=
  assertAllEqLoop "Channels differ across segments" none parsed

/-- Two-segment witness data for C6: the second segment's parsed
descriptor table differs from the first in its channel count. -/
def c6Group (n : Nat) : ChanGroupInfo :=
  { storeName := [87, 97, 118], headName := [], enabled := true,
    circType := 0, numChan := n, strobeMode := 0,
    tankEvType := EVTYPE_STREAM, numPoints := 256, dataFormat := 3,
    sampleFreq := 24414 }

/-- The boolean selection of _parse_header over a segment's index for one
stream store and one channel: stream event-type or its variant, matching
store name, matching channel number. -/
def streamRecordMask (store : List Nat) (chanId : Nat) (r : IndexRecord) :
    Bool :=
  decide (((r.evtype = EVTYPE_STREAM) ∨ (r.evtype = EVTYPE_STREAM_VARIANT)) ∧
    r.evname = store ∧ r.channel = chanId)

/-- The sample count _parse_header derives for one channel of a stream
group in one segment: points-per-chunk times the number of selected index
records. -/
def chanSampleCount (info : ChanGroupInfo) (tsq : List IndexRecord)
    (chanId : Nat) : Nat :=
  info.numPoints * (tsq.filter (streamRecordMask info.storeName chanId)).length

/-- The channel ids of a group: 1 up to the declared channel count. -/
def chanIds (info : ChanGroupInfo) : List Nat :=
  (List.range info.numChan).map (fun c => c + 1)

/-- The per-group indexing pass over one segment: the first channel's
derived sample count is stored and each further channel's count is
asserted equal to it. -/
def checkStreamLengths (info : ChanGroupInfo) (tsq : List IndexRecord) :
    Except String (Option Nat) :=
  assertAllEqLoop "AssertionError" none
    ((chanIds info).map (chanSampleCount info tsq))

/-- C8 witness data: a two-channel group whose two channels select
different chunk counts in the witness segment. -/
def c8Info : ChanGroupInfo := c6Group 2

/-- Witness segment index: one stream chunk on channel 1, two on
channel 2. -/
def c8Tsq : List IndexRecord :=
  [ { size := 40, evtype := EVTYPE_STREAM, evname := [87, 97, 118],
      channel := 1, sortcode := 0, timestamp := 0, offset := 0,
      dataformat := 3, frequency := 24414 },
    { size := 40, evtype := EVTYPE_STREAM, evname := [87, 97, 118],
      channel := 2, sortcode := 0, timestamp := 0, offset := 256,
      dataformat := 3, frequency := 24414 },
    { size := 40, evtype := EVTYPE_STREAM, evname := [87, 97, 118],
      channel := 2, sortcode := 0, timestamp := 0, offset := 512,
      dataformat := 3, frequency := 24414 } ]

/-- The segment timestamp extraction of _parse_header: with the two
records python indexes present (tsq[1] and tsq[-1]), the start timestamp
is read from the second record when its name equals the start-of-block
marker byte and is the undefined not-a-number value otherwise; the stop
timestamp symmetrically from the last record against the end-of-block
marker; a missing marker only prints a message and processing continues.
A shorter index would raise IndexError at the tsq[1] access itself. -/
def segTimes (tsq : List IndexRecord) : Except PyError (Option ℚ × Option ℚ) :=
  if 2 ≤ tsq.length then
    .ok
      ((if (tsq.getD 1 default).evname = [EVMARK_STARTBLOCK] then
          some (tsq.getD 1 default).timestamp else none),
       (if (tsq.getD (tsq.length - 1) default).evname = [EVMARK_STOPBLOCK] then
          some (tsq.getD (tsq.length - 1) default).timestamp else none))
  else .error .indexError

/-- Witness segment index for C7: a start sentinel in second position but
no stop sentinel in last position. -/
def c7Tsq : List IndexRecord :=
  [ mkSortRec 0,
    { size := 40, evtype := EVTYPE_STRON, evname := [EVMARK_STARTBLOCK],
      channel := 0, sortcode := 0, timestamp := 50, offset := 0,
      dataformat := 0, frequency := 0 },
    mkSortRec 3 ]

/-- The mode of a reader after init. -/
inductive BlockMode
  | multi
  | single
deriving DecidableEq, Repr

/-- The attributes of the input path that TdtRawIO.__init__ inspects. -/
structure PathInfo where
  isDir : Bool
  isFile : Bool
  stem : String
deriving DecidableEq, Repr

/-- TdtRawIO.__init__: an existing directory selects multi-block mode and
keeps the path; an existing file selects single-block mode with the final
suffix stripped from the path; any other path raises ValueError (the
NotFound failure of the specification) before any header parsing. -/
def tdtInit (p : PathInfo) (name : String) (sortname : String) :
    Except PyError (String × BlockMode × String) :=
  if p.isDir then .ok (name, .multi, sortname)
  else if p.isFile then .ok (p.stem, .single, sortname)
  else .error .valueError

/-- The record selection helper _get_mask: event-type, store name and
channel number must match; the sortcode condition applies only when a
unit id is given, and each time bound applies only when given, compared
after adding back the global time origin. -/
def getMask (evtype : Int) (evname : List Nat) (chanId : Nat)
    (unitId : Option Nat) (tStart tStop : Option ℚ) (globalT0 : ℚ)
    (r : IndexRecord) : Bool :=
  (decide (r.evtype = evtype) && decide (r.evname = evname) &&
    decide (r.channel = chanId)) &&
  (match unitId with | some u => decide (r.sortcode = u) | none => true) &&
  (match tStart with
    | some t => decide (t + globalT0 ≤ r.timestamp) | none => true) &&
  (match tStop with
    | some t => decide (r.timestamp ≤ t + globalT0) | none => true)

/-- The event-channel rows _parse_header publishes: one per onset-tagged
store, with channel id 1 and kind event. -/
def eventChannelsOfHeader (groups : List ChanGroupInfo) :
    List (List Nat × Nat × String) :=
  (groups.filter (fun g => decide (g.tankEvType = EVTYPE_STRON))).map
    (fun g => (g.storeName, 1, "event"))

/-- The record selection of _event_count: onset event-type, the store
name, and channel number fixed at 0. -/
def eventCount (globalT0 : ℚ) (tsq : List IndexRecord)
    (store : List Nat) : Nat :=
  (tsq.filter (getMask EVTYPE_STRON store 0 none none none globalT0)).length

/-- The timestamps of _get_event_timestamps: same selection as the count,
shifted by the global time origin. -/
def eventTimestamps (globalT0 : ℚ) (tsq : List IndexRecord)
    (store : List Nat) : List ℚ :=
  (tsq.filter (getMask EVTYPE_STRON store 0 none none none globalT0)).map
    (fun r => r.timestamp - globalT0)

/-- The labels of _get_event_timestamps: the offset field of each
selected record rendered as text. -/
def eventLabels (globalT0 : ℚ) (tsq : List IndexRecord)
    (store : List Nat) : List String :=
  (tsq.filter (getMask EVTYPE_STRON store 0 none none none globalT0)).map
    (fun r => toString r.offset)

/-- Witness data for C10: one onset store and an index holding one
matching channel-0 record and one record on channel 1. -/
def c10Group : ChanGroupInfo :=
  { storeName := [80, 116, 114, 49], headName := [], enabled := true,
    circType := 0, numChan := 1, strobeMode := 0,
    tankEvType := EVTYPE_STRON, numPoints := 0, dataFormat := 0,
    sampleFreq := 0 }

/-- Witness index for C10. -/
def c10Tsq : List IndexRecord :=
  [ { size := 40, evtype := EVTYPE_STRON, evname := [80, 116, 114, 49],
      channel := 0, sortcode := 0, timestamp := 7, offset := 65,
      dataformat := 0, frequency := 0 },
    { size := 40, evtype := EVTYPE_STRON, evname := [80, 116, 114, 49],
      channel := 1, sortcode := 0, timestamp := 9, offset := 66,
      dataformat := 0, frequency := 0 } ]

set_option maxRecDepth 4000

theorem add_mul_div_pred (x y b : Nat) (hb : 0 < b) (hy : y < b) :
    (b * x + y + b - 1) / b = x + (if y = 0 then 0 else 1) := by
  by_cases h : y = 0
  · have h1 : b * x + y + b - 1 = b * x + (b - 1) := by omega
    rw [h1, Nat.mul_add_div hb, Nat.div_eq_of_lt (by omega)]
    simp [h]
  · have h2 : b * (x + 1) = b * x + b := by ring
    have h1 : b * x + y + b - 1 = b * (x + 1) + (y - 1) := by omega
    rw [h1, Nat.mul_add_div hb, Nat.div_eq_of_lt (by omega)]
    simp [h]

theorem ceilDiv_spec (a b : Nat) (hb : 0 < b) :
    ceilDiv a b = a / b + (if a % b = 0 then 0 else 1) := by
  have hdm := Nat.div_add_mod a b
  have hlt : a % b < b := Nat.mod_lt _ hb
  have ha : a + b - 1 = b * (a / b) + a % b + b - 1 := by omega
  unfold ceilDiv
  rw [ha, add_mul_div_pred _ _ _ hb hlt]

theorem le_ceilDiv_mul (a b : Nat) (hb : 0 < b) : a ≤ ceilDiv a b * b := by
  have hdm := Nat.div_add_mod a b
  have hlt : a % b < b := Nat.mod_lt _ hb
  rw [ceilDiv_spec a b hb]
  split
  · have h1 : (a / b + 0) * b = b * (a / b) := by ring
    omega
  · have h2 : (a / b + 1) * b = b * (a / b) + b := by ring
    omega

theorem ceilDiv_le_of_le (a b n : Nat) (hb : 0 < b) (h : a ≤ n * b) :
    ceilDiv a b ≤ n := by
  have hdm := Nat.div_add_mod a b
  have hlt : a % b < b := Nat.mod_lt _ hb
  have hnb : n * b = b * n := by ring
  rw [ceilDiv_spec a b hb]
  split
  · by_contra hc
    have h5 : n + 1 ≤ a / b := by omega
    have h6 : b * (n + 1) ≤ b * (a / b) := Nat.mul_le_mul_left b h5
    have h7 : b * (n + 1) = b * n + b := by ring
    omega
  · by_contra hc
    have h5 : n ≤ a / b := by omega
    have h6 : b * n ≤ b * (a / b) := Nat.mul_le_mul_left b h5
    omega

/-- C1 counterexample: for the scenario with points-per-chunk 256 and 4
chunks, the chunk read for samples 300 to 600 does not return chunk 1
trimmed of 44 leading samples followed by chunk 2 trimmed of 24 trailing
samples, as the claim states: those trims would give 212 + 232 = 444
samples, and the code keeps only the first 88 samples of chunk 2. -/
theorem c1_trim_counterexample :
    readChannelColumn c1Index c1Buf 1 256 300 600 ≠ Except.ok c1ClaimedOutput := by
  decide

/-- C1 amended: for a stream channel-group with points-per-chunk 256 and 4
chunks (1024 samples), the chunk read for samples 300 to 600 returns
exactly 300 samples, trimming 44 samples from the start of chunk index 1
and 168 samples from the end of chunk index 2, keeping that chunk's first
88 = 600 mod 256 samples. -/
theorem c1_trim_amended :
    readChannelColumn c1Index c1Buf 1 256 300 600 = Except.ok c1ActualOutput ∧
    c1ActualOutput.length = 300 ∧
    ((c1Chunk 1).drop 44).length = 256 - 44 ∧
    ((c1Chunk 2).take 88).length = 256 - 168 := by
  refine ⟨rfl, rfl, rfl, rfl⟩

theorem viewElems_length (w : Nat) (bytes : List Nat) :
    (viewElems w bytes).length = bytes.length / w := by
  simp [viewElems]

theorem length_of_mem_viewElems {w n : Nat} {bytes : List Nat} (hw : 0 < w)
    (hb : bytes.length = n * w) {e : List Nat} (he : e ∈ viewElems w bytes) :
    e.length = w := by
  simp only [viewElems, List.mem_map, List.mem_range] at he
  obtain ⟨i, hi, rfl⟩ := he
  have hn : bytes.length / w = n := by rw [hb, Nat.mul_div_cancel _ hw]
  rw [hn] at hi
  have h1 : (i + 1) * w = i * w + w := by ring
  have h2 : (i + 1) * w ≤ n * w := Nat.mul_le_mul_right w (by omega)
  simp only [List.length_take, List.length_drop]
  omega

theorem rightTrim_eq_spec (spc iStop : Nat) (data : List (List Nat))
    (hspc : 0 < spc) (hlen : data.length = spc) :
    rightTrim spc iStop data = specTrimLast spc iStop data := by
  have hm : iStop % spc < spc := Nat.mod_lt _ hspc
  by_cases h : iStop % spc = 0
  · have hc : ¬ ((data.length : Int) - ((iStop % spc : Nat) : Int) ≠ (data.length : Int)) := by
      omega
    simp only [rightTrim, specTrimLast, if_neg hc, if_pos h]
  · have hc : (data.length : Int) - ((iStop % spc : Nat) : Int) ≠ (data.length : Int) := by
      omega
    have hpos : (0 : Int) < (data.length : Int) - ((iStop % spc : Nat) : Int) := by
      omega
    simp only [rightTrim, specTrimLast, pyTrimTail, if_pos hc, if_pos hpos, if_neg h]
    congr 1
    omega

theorem chunkPiece_eq_spec (dataIndex : List IndexRecord) (dataBuf : List Nat)
    (w spc iStart iStop bl0 bl1 bl : Nat) (hspc : 0 < spc)
    (hlen : (viewElems w
      ((dataBuf.drop (dataIndex.getD bl default).offset.toNat).take (spc * w))).length = spc) :
    chunkPiece dataIndex dataBuf w spc iStart iStop bl0 bl1 bl =
      specPiece dataIndex dataBuf w spc iStart iStop bl0 bl1 bl := by
  unfold chunkPiece specPiece processChunk
  rw [rightTrim_eq_spec _ _ _ hspc hlen]

theorem specTrimLast_length (spc iStop : Nat) (elems : List (List Nat))
    (hspc : 0 < spc) (hlen : elems.length = spc) :
    (specTrimLast spc iStop elems).length =
      if iStop % spc = 0 then spc else iStop % spc := by
  have hm : iStop % spc < spc := Nat.mod_lt _ hspc
  unfold specTrimLast
  split
  · exact hlen
  · simp [List.length_take]
    omega

theorem ceilDiv_last_chunk (iStop spc : Nat) (hspc : 0 < spc)
    (hpos : 1 ≤ ceilDiv iStop spc) :
    ∃ T, 1 ≤ T ∧ T ≤ spc ∧ iStop = (ceilDiv iStop spc - 1) * spc + T ∧
      T = (if iStop % spc = 0 then spc else iStop % spc) := by
  have hdm1 : spc * (iStop / spc) + iStop % spc = iStop := Nat.div_add_mod iStop spc
  have hmlt : iStop % spc < spc := Nat.mod_lt _ hspc
  by_cases hm : iStop % spc = 0
  · refine ⟨spc, hspc, le_refl spc, ?_, by simp [hm]⟩
    have hq : ceilDiv iStop spc = iStop / spc := by
      rw [ceilDiv_spec iStop spc hspc, hm]
      simp
    have hq1 : 1 ≤ iStop / spc := by omega
    have h2 : (iStop / spc - 1 + 1) * spc = (iStop / spc - 1) * spc + spc := by ring
    have h3 : iStop / spc - 1 + 1 = iStop / spc := by omega
    rw [h3] at h2
    have h4 : (iStop / spc) * spc = spc * (iStop / spc) := by ring
    rw [hq]
    omega
  · refine ⟨iStop % spc, by omega, by omega, ?_, by simp [hm]⟩
    have hq : ceilDiv iStop spc = iStop / spc + 1 := by
      rw [ceilDiv_spec iStop spc hspc]
      simp [hm]
    have h2 : (iStop / spc + 1 - 1) * spc = spc * (iStop / spc) := by
      have h3 : iStop / spc + 1 - 1 = iStop / spc := by omega
      rw [h3]; ring
    rw [hq]
    omega

theorem specChunkColumn_length (dataIndex : List IndexRecord) (dataBuf : List Nat)
    (w spc iStart iStop : Nat) (hspc : 0 < spc)
    (hse : iStart ≤ iStop) (hstop : iStop ≤ spc * dataIndex.length)
    (hchunk : ∀ bl, bl < dataIndex.length →
      (viewElems w
        ((dataBuf.drop (dataIndex.getD bl default).offset.toNat).take (spc * w))).length = spc) :
    (specChunkColumn dataIndex dataBuf w spc iStart iStop).length = iStop - iStart := by
  have hr : iStart % spc < spc := Nat.mod_lt _ hspc
  have hdm0 : spc * (iStart / spc) + iStart % spc = iStart := Nat.div_add_mod iStart spc
  have hy : iStop ≤ ceilDiv iStop spc * spc := le_ceilDiv_mul iStop spc hspc
  have hbl1le : ceilDiv iStop spc ≤ dataIndex.length := by
    apply ceilDiv_le_of_le _ _ _ hspc
    have h1 : dataIndex.length * spc = spc * dataIndex.length := by ring
    omega
  have hdec := ceilDiv_last_chunk iStop spc hspc
  unfold specChunkColumn
  generalize hbl0 : iStart / spc = bl0 at hdm0 ⊢
  generalize hbl1 : ceilDiv iStop spc = bl1 at hy hbl1le hdec ⊢
  rw [List.length_flatten, List.map_map]
  by_cases hk0 : bl1 - bl0 = 0
  · -- empty block range: the requested sample range is empty as well
    rw [hk0]
    have hmul : bl1 * spc ≤ bl0 * spc := Nat.mul_le_mul_right spc (by omega)
    have hc : bl0 * spc = spc * bl0 := by ring
    simp only [List.range'_zero, List.map_nil, List.sum_nil]
    omega
  · have hb1pos : 1 ≤ bl1 := by omega
    obtain ⟨T, hT1, hTle, hstopEq, hTdef⟩ := hdec hb1pos
    have hlast : bl1 - 1 < dataIndex.length := by omega
    -- length of the final overlapping chunk after its right trim
    have hlenLast :
        (specTrimLast spc iStop (viewElems w
          ((dataBuf.drop (dataIndex.getD (bl1 - 1) default).offset.toNat).take
            (spc * w)))).length = T := by
      rw [specTrimLast_length spc iStop _ hspc (hchunk _ hlast), ← hTdef]
    by_cases hk1 : bl1 - bl0 = 1
    · -- a single chunk is both first and last: both trims apply
      have hb : bl1 - 1 = bl0 := by omega
      rw [hb] at hstopEq hlenLast
      rw [hk1, List.range'_one, List.map_cons, List.map_nil, List.sum_cons,
        List.sum_nil]
      simp only [Function.comp_apply, specPiece, hb, eq_self_iff_true, if_true]
      rw [List.length_drop, hlenLast]
      have hc : bl0 * spc = spc * bl0 := by ring
      omega
    · -- at least two chunks: left trim on the first, right trim on the last,
      -- all interior chunks kept whole
      have hk2 : 2 ≤ bl1 - bl0 := by omega
      have hfirstIdx : bl0 < dataIndex.length := by omega
      have hfirstNe : ¬ (bl0 = bl1 - 1) := by omega
      have hlist : List.range' bl0 (bl1 - bl0) =
          [bl0] ++ List.range' (bl0 + 1) (bl1 - bl0 - 2) ++ [bl1 - 1] := by
        rw [show bl1 - bl0 = (bl1 - bl0 - 2 + 1) + 1 from by omega,
          List.range'_succ, List.range'_concat,
          show bl0 + 1 + 1 * (bl1 - bl0 - 2) = bl1 - 1 from by omega]
        simp
      rw [hlist, List.map_append, List.map_append, List.sum_append,
        List.sum_append]
      -- first chunk: left trim only
      have hfirst : (([bl0]).map
          (List.length ∘ specPiece dataIndex dataBuf w spc iStart iStop bl0 bl1)).sum
          = spc - iStart % spc := by
        rw [List.map_cons, List.map_nil, List.sum_cons, List.sum_nil]
        simp only [Function.comp_apply, specPiece, if_neg hfirstNe,
          eq_self_iff_true, if_true]
        rw [List.length_drop, hchunk _ hfirstIdx]
        omega
      -- last chunk: right trim only
      have hlastNe : ¬ (bl1 - 1 = bl0) := by omega
      have hlastSum : (([bl1 - 1]).map
          (List.length ∘ specPiece dataIndex dataBuf w spc iStart iStop bl0 bl1)).sum
          = T := by
        rw [List.map_cons, List.map_nil, List.sum_cons, List.sum_nil]
        simp only [Function.comp_apply, specPiece, if_neg hlastNe,
          eq_self_iff_true, if_true]
        rw [hlenLast]
        omega
      -- interior chunks: kept whole
      have hmid : ((List.range' (bl0 + 1) (bl1 - bl0 - 2)).map
          (List.length ∘ specPiece dataIndex dataBuf w spc iStart iStop bl0 bl1)).sum
          = (bl1 - bl0 - 2) * spc := by
        have hcg : ∀ bl ∈ List.range' (bl0 + 1) (bl1 - bl0 - 2),
            (List.length ∘ specPiece dataIndex dataBuf w spc iStart iStop bl0 bl1) bl
              = spc := by
          intro bl hbl
          rw [List.mem_range'_1] at hbl
          have h1 : ¬ (bl = bl1 - 1) := by omega
          have h2 : ¬ (bl = bl0) := by omega
          have h3 : bl < dataIndex.length := by omega
          simp only [Function.comp_apply, specPiece, if_neg h1, if_neg h2]
          exact hchunk _ h3
        rw [List.map_congr_left hcg, List.map_const', List.sum_replicate,
          List.length_range', smul_eq_mul]
      rw [hfirst, hmid, hlastSum]
      have hbr : bl1 - 1 = bl0 + (bl1 - bl0 - 2) + 1 := by omega
      rw [hbr] at hstopEq
      have hc1 : (bl0 + (bl1 - bl0 - 2) + 1) * spc
          = bl0 * spc + (bl1 - bl0 - 2) * spc + spc := by ring
      have hc : bl0 * spc = spc * bl0 := by ring
      omega

theorem fillLoop_spec (dataIndex : List IndexRecord) (dataBuf : List Nat)
    (w spc iStart iStop bl0 bl1 : Nat) (blist : List Nat) :
    ∀ (ind : Nat) (raw : List (List Nat)),
    (∀ bl ∈ blist, bl < dataIndex.length) →
    (∀ bl ∈ blist,
      ((dataBuf.drop (dataIndex.getD bl default).offset.toNat).take
        (spc * w)).length % w = 0) →
    ind + ((blist.map (fun bl =>
      (chunkPiece dataIndex dataBuf w spc iStart iStop bl0 bl1 bl).length)).sum)
      ≤ raw.length →
    fillLoop dataIndex dataBuf w spc iStart iStop bl0 bl1 blist ind raw =
      .ok (raw.take ind ++
        (blist.map (chunkPiece dataIndex dataBuf w spc iStart iStop bl0 bl1)).flatten ++
        raw.drop (ind + ((blist.map (fun bl =>
          (chunkPiece dataIndex dataBuf w spc iStart iStop bl0 bl1 bl).length)).sum))) := by
  induction blist with
  | nil =>
    intro ind raw _ _ _
    simp [fillLoop]
  | cons bl rest ih =>
    intro ind raw hmem hbytes hsum
    have hbl : bl < dataIndex.length := hmem bl (by simp)
    have hb : ((dataBuf.drop (dataIndex.getD bl default).offset.toNat).take
        (spc * w)).length % w = 0 := hbytes bl (by simp)
    rw [List.map_cons, List.sum_cons] at hsum
    have hcan : ind +
        (chunkPiece dataIndex dataBuf w spc iStart iStop bl0 bl1 bl).length
        ≤ raw.length := by omega
    have hind : ind ≤ raw.length := by omega
    have hw2 : writeSlice raw ind
        (chunkPiece dataIndex dataBuf w spc iStart iStop bl0 bl1 bl) =
        .ok (raw.take ind ++
          chunkPiece dataIndex dataBuf w spc iStart iStop bl0 bl1 bl ++
          raw.drop (ind +
            (chunkPiece dataIndex dataBuf w spc iStart iStop bl0 bl1 bl).length)) := by
      unfold writeSlice
      rw [if_pos hcan]
    simp only [fillLoop, if_pos hbl, if_pos hb, hw2]
    -- the recursive call continues on the written column
    have hA : (raw.take ind).length = ind := by
      rw [List.length_take]
      omega
    have hAD : (raw.take ind ++
        chunkPiece dataIndex dataBuf w spc iStart iStop bl0 bl1 bl).length =
        ind + (chunkPiece dataIndex dataBuf w spc iStart iStop bl0 bl1 bl).length := by
      rw [List.length_append, hA]
    have hlen2 : (raw.take ind ++
        chunkPiece dataIndex dataBuf w spc iStart iStop bl0 bl1 bl ++
        raw.drop (ind +
          (chunkPiece dataIndex dataBuf w spc iStart iStop bl0 bl1 bl).length)).length
        = raw.length := by
      rw [List.length_append, List.length_append, hA, List.length_drop]
      omega
    have hrec := ih
      (ind + (chunkPiece dataIndex dataBuf w spc iStart iStop bl0 bl1 bl).length)
      (raw.take ind ++
        chunkPiece dataIndex dataBuf w spc iStart iStop bl0 bl1 bl ++
        raw.drop (ind +
          (chunkPiece dataIndex dataBuf w spc iStart iStop bl0 bl1 bl).length))
      (fun x hx => hmem x (by simp [hx]))
      (fun x hx => hbytes x (by simp [hx]))
      (by rw [hlen2]; omega)
    rw [hrec]
    congr 1
    -- align the take and drop on the written column with those on raw
    rw [List.take_left' hAD, ← hAD, List.drop_append, List.drop_drop]
    simp [hAD, List.append_assoc, Nat.add_assoc]

theorem chunkBytes_length (dataIndex : List IndexRecord) (dataBuf : List Nat)
    (w spc : Nat) (bl : Nat)
    (hoff : (dataIndex.getD bl default).offset.toNat + spc * w ≤ dataBuf.length) :
    ((dataBuf.drop (dataIndex.getD bl default).offset.toNat).take
      (spc * w)).length = spc * w := by
  rw [List.length_take, List.length_drop]
  omega

theorem readChannelColumn_spec (dataIndex : List IndexRecord) (dataBuf : List Nat)
    (w spc iStart iStop : Nat) (hspc : 0 < spc) (hw : 0 < w)
    (hse : iStart ≤ iStop) (hstop : iStop ≤ spc * dataIndex.length)
    (hoff : ∀ bl, bl < dataIndex.length →
      (dataIndex.getD bl default).offset.toNat + spc * w ≤ dataBuf.length) :
    readChannelColumn dataIndex dataBuf w spc iStart iStop =
      .ok (specChunkColumn dataIndex dataBuf w spc iStart iStop) := by
  have hbl1le : ceilDiv iStop spc ≤ dataIndex.length := by
    apply ceilDiv_le_of_le _ _ _ hspc
    have h1 : dataIndex.length * spc = spc * dataIndex.length := by ring
    omega
  have hmem : ∀ bl ∈ List.range' (iStart / spc)
      (ceilDiv iStop spc - iStart / spc), bl < dataIndex.length := by
    intro bl hbl
    rw [List.mem_range'_1] at hbl
    omega
  have hchunklen : ∀ bl, bl < dataIndex.length →
      (viewElems w ((dataBuf.drop
        (dataIndex.getD bl default).offset.toNat).take (spc * w))).length = spc := by
    intro bl h
    rw [viewElems_length, chunkBytes_length dataIndex dataBuf w spc bl (hoff bl h),
      Nat.mul_div_cancel _ hw]
  have hbytes : ∀ bl ∈ List.range' (iStart / spc)
      (ceilDiv iStop spc - iStart / spc),
      ((dataBuf.drop (dataIndex.getD bl default).offset.toNat).take
        (spc * w)).length % w = 0 := by
    intro bl hbl
    rw [chunkBytes_length dataIndex dataBuf w spc bl (hoff bl (hmem bl hbl))]
    exact Nat.mul_mod_left spc w
  have hpieces : ∀ bl ∈ List.range' (iStart / spc)
      (ceilDiv iStop spc - iStart / spc),
      chunkPiece dataIndex dataBuf w spc iStart iStop (iStart / spc)
        (ceilDiv iStop spc) bl =
      specPiece dataIndex dataBuf w spc iStart iStop (iStart / spc)
        (ceilDiv iStop spc) bl := by
    intro bl hbl
    exact chunkPiece_eq_spec dataIndex dataBuf w spc iStart iStop _ _ bl hspc
      (hchunklen bl (hmem bl hbl))
  have hcol := specChunkColumn_length dataIndex dataBuf w spc iStart iStop hspc
    hse hstop hchunklen
  rw [specChunkColumn, List.length_flatten, List.map_map] at hcol
  have hsumlen : ((List.range' (iStart / spc)
      (ceilDiv iStop spc - iStart / spc)).map (fun bl =>
        (chunkPiece dataIndex dataBuf w spc iStart iStop (iStart / spc)
          (ceilDiv iStop spc) bl).length)).sum = iStop - iStart := by
    have h1 : (List.range' (iStart / spc)
        (ceilDiv iStop spc - iStart / spc)).map (fun bl =>
          (chunkPiece dataIndex dataBuf w spc iStart iStop (iStart / spc)
            (ceilDiv iStop spc) bl).length) =
        (List.range' (iStart / spc)
        (ceilDiv iStop spc - iStart / spc)).map (List.length ∘
          specPiece dataIndex dataBuf w spc iStart iStop (iStart / spc)
            (ceilDiv iStop spc)) := by
      apply List.map_congr_left
      intro bl hbl
      simp only [Function.comp_apply]
      rw [hpieces bl hbl]
    rw [h1, hcol]
  unfold readChannelColumn
  rw [fillLoop_spec dataIndex dataBuf w spc iStart iStop (iStart / spc)
    (ceilDiv iStop spc) _ 0 _ hmem hbytes
    (by rw [List.length_replicate]; omega)]
  rw [List.map_congr_left hpieces]
  congr 1
  rw [List.take_zero, List.nil_append, Nat.zero_add, hsumlen,
    List.drop_eq_nil_of_le (by rw [List.length_replicate])]
  rw [List.append_nil]
  rfl

theorem chunkElems_length (dataIndex : List IndexRecord) (dataBuf : List Nat)
    (w spc bl : Nat) (hw : 0 < w)
    (hoff : (dataIndex.getD bl default).offset.toNat + spc * w ≤ dataBuf.length) :
    (viewElems w ((dataBuf.drop
      (dataIndex.getD bl default).offset.toNat).take (spc * w))).length = spc := by
  rw [viewElems_length, chunkBytes_length dataIndex dataBuf w spc bl hoff,
    Nat.mul_div_cancel _ hw]

theorem specPiece_subset (dataIndex : List IndexRecord) (dataBuf : List Nat)
    (w spc iStart iStop bl0 bl1 bl : Nat) :
    specPiece dataIndex dataBuf w spc iStart iStop bl0 bl1 bl ⊆
      viewElems w ((dataBuf.drop
        (dataIndex.getD bl default).offset.toNat).take (spc * w)) := by
  unfold specPiece specTrimLast
  intro e he
  simp only at he
  split at he
  · have h2 := List.drop_subset _ _ he
    split at h2
    · split at h2
      · exact h2
      · exact List.take_subset _ _ h2
    · exact h2
  · split at he
    · split at he
      · exact he
      · exact List.take_subset _ _ he
    · exact he

theorem specChunkColumn_elem_width (dataIndex : List IndexRecord)
    (dataBuf : List Nat) (w spc iStart iStop : Nat) (hspc : 0 < spc)
    (hw : 0 < w) (hstop : iStop ≤ spc * dataIndex.length)
    (hoff : ∀ bl, bl < dataIndex.length →
      (dataIndex.getD bl default).offset.toNat + spc * w ≤ dataBuf.length) :
    ∀ e ∈ specChunkColumn dataIndex dataBuf w spc iStart iStop, e.length = w := by
  intro e he
  have hbl1le : ceilDiv iStop spc ≤ dataIndex.length := by
    apply ceilDiv_le_of_le _ _ _ hspc
    have h1 : dataIndex.length * spc = spc * dataIndex.length := by ring
    omega
  unfold specChunkColumn at he
  rw [List.mem_flatten] at he
  obtain ⟨piece, hp, hep⟩ := he
  rw [List.mem_map] at hp
  obtain ⟨bl, hbl, rfl⟩ := hp
  rw [List.mem_range'_1] at hbl
  have hv : bl < dataIndex.length := by omega
  have hm2 := specPiece_subset dataIndex dataBuf w spc iStart iStop
    (iStart / spc) (ceilDiv iStop spc) bl hep
  exact length_of_mem_viewElems hw
    (chunkBytes_length dataIndex dataBuf w spc bl (hoff bl hv)) hm2

theorem getAnalogsignalChunk_spec (w spc iStart iStop : Nat) (hspc : 0 < spc)
    (hw : 0 < w) (hse : iStart ≤ iStop) :
    ∀ (channels : List (List IndexRecord × List Nat)),
    (∀ ch ∈ channels, iStop ≤ spc * ch.1.length ∧
      ∀ bl, bl < ch.1.length →
        (ch.1.getD bl default).offset.toNat + spc * w ≤ ch.2.length) →
    getAnalogsignalChunk channels w spc iStart iStop =
      .ok (channels.map (fun ch => specChunkColumn ch.1 ch.2 w spc iStart iStop))
  | [], _ => rfl
  | ch :: rest, hch => by
    have h1 := hch ch (by simp)
    simp only [getAnalogsignalChunk, List.map_cons]
    rw [readChannelColumn_spec ch.1 ch.2 w spc iStart iStop hspc hw hse h1.1
      (fun bl h => h1.2 bl h)]
    rw [getAnalogsignalChunk_spec w spc iStart iStop hspc hw hse rest
      (fun c hc => hch c (by simp [hc]))]
    rfl

/-- C2: for every chunk read with sample_start at most sample_stop at most
the channel length (chunk_size times the chunk count), and chunk records
whose byte offsets lie fully inside the backing buffer, the read equals
the claim's algorithm: the overlapping chunks are the indices from
sample_start div chunk_size up to exclusive ceil of sample_stop over
chunk_size; each chunk is sliced at its recorded byte offset for exactly
chunk_size times element_width bytes and reinterpreted as elements of the
group's width; the first chunk is trimmed of its leading sample_start mod
chunk_size samples and the last chunk of its samples beyond sample_stop
mod chunk_size, with both trims applied when a chunk is first and last at
once; the assembled output has sample_stop - sample_start rows per
column, one column per selected channel, and every element has the
group's element width. -/
theorem c2_chunk_read_correct (channels : List (List IndexRecord × List Nat))
    (w spc iStart iStop : Nat) (hspc : 0 < spc) (hw : 0 < w)
    (hse : iStart ≤ iStop)
    (hch : ∀ ch ∈ channels, iStop ≤ spc * ch.1.length ∧
      ∀ bl, bl < ch.1.length → 0 ≤ (ch.1.getD bl default).offset ∧
        (ch.1.getD bl default).offset.toNat + spc * w ≤ ch.2.length) :
    getAnalogsignalChunk channels w spc iStart iStop =
      .ok (channels.map (fun ch => specChunkColumn ch.1 ch.2 w spc iStart iStop)) ∧
    (channels.map (fun ch => specChunkColumn ch.1 ch.2 w spc iStart iStop)).length
      = channels.length ∧
    (∀ ch ∈ channels,
      (specChunkColumn ch.1 ch.2 w spc iStart iStop).length = iStop - iStart) ∧
    (∀ ch ∈ channels, ∀ e ∈ specChunkColumn ch.1 ch.2 w spc iStart iStop,
      e.length = w) := by
  refine ⟨?_, List.length_map _ _, ?_, ?_⟩
  · exact getAnalogsignalChunk_spec w spc iStart iStop hspc hw hse channels
      (fun ch hc => ⟨(hch ch hc).1, fun bl h => ((hch ch hc).2 bl h).2⟩)
  · intro ch hc
    exact specChunkColumn_length ch.1 ch.2 w spc iStart iStop hspc hse
      (hch ch hc).1
      (fun bl h => chunkElems_length ch.1 ch.2 w spc bl hw ((hch ch hc).2 bl h).2)
  · intro ch hc
    exact specChunkColumn_elem_width ch.1 ch.2 w spc iStart iStop hspc hw
      (hch ch hc).1 (fun bl h => ((hch ch hc).2 bl h).2)

theorem c2_chunk_read_correct_witness :
    ((0 : Nat) < 2 ∧ (1 : Nat) ≤ 3 ∧
      (∀ ch ∈ c2Channels, 3 ≤ 2 * ch.1.length ∧
        ∀ bl, bl < ch.1.length → 0 ≤ (ch.1.getD bl default).offset ∧
          (ch.1.getD bl default).offset.toNat + 2 * 2 ≤ ch.2.length)) ∧
    (getAnalogsignalChunk c2Channels 2 2 1 3 =
      .ok (c2Channels.map (fun ch => specChunkColumn ch.1 ch.2 2 2 1 3)) ∧
    (c2Channels.map (fun ch => specChunkColumn ch.1 ch.2 2 2 1 3)).length
      = c2Channels.length ∧
    (∀ ch ∈ c2Channels,
      (specChunkColumn ch.1 ch.2 2 2 1 3).length = 3 - 1) ∧
    (∀ ch ∈ c2Channels, ∀ e ∈ specChunkColumn ch.1 ch.2 2 2 1 3,
      e.length = 2)) :=
  ⟨⟨by decide, by decide, by decide⟩,
    c2_chunk_read_correct c2Channels 2 2 1 3 (by decide) (by decide) (by decide)
      (by decide)⟩

theorem overwriteSortcodesFrom_length (codes : List Int) (n : Nat) :
    ∀ (i : Nat) (l : List IndexRecord),
    (overwriteSortcodesFrom codes n i l).length = l.length
  | _, [] => rfl
  | i, r :: rest => by
    simp [overwriteSortcodesFrom, overwriteSortcodesFrom_length codes n (i + 1) rest]

theorem overwriteSortcodesFrom_getD (codes : List Int) (n : Nat) :
    ∀ (i j : Nat) (l : List IndexRecord), j < l.length →
    (overwriteSortcodesFrom codes n i l).getD j default =
      (if 1 ≤ i + j ∧ i + j + 1 < n then
        { l.getD j default with
          sortcode := castInt8ToUint16 (codes.getD (i + j - 1) 0) }
       else l.getD j default)
  | i, j, [], hj => by simp at hj
  | i, 0, r :: rest, _ => by
    simp [overwriteSortcodesFrom, List.getD_cons_zero]
  | i, j + 1, r :: rest, hj => by
    have ih := overwriteSortcodesFrom_getD codes n (i + 1) j rest
      (by simp at hj; omega)
    simp only [overwriteSortcodesFrom, List.getD_cons_succ]
    rw [ih]
    have h1 : i + 1 + j = i + (j + 1) := by omega
    rw [h1]

/-- C4 counterexample: with a sort name given and a SortResult overlay
file whose label payload (two labels) does not match the three
non-sentinel records, the overlay step raises an uncaught ValueError
instead of completing silently, so the claim that any read-or-apply
failure is fully silent is false at this concrete input. -/
theorem c4_silent_failure_counterexample :
    applySortOverlay "PLX" c4Fs c4Tsq = .error .valueError := by rfl

/-- C4 amended: only file-system (OS) errors while locating or reading
the overlay are silent — open completes normally and every record keeps
its original embedded sort label; but a shape error in the overlay data
(a label count that neither matches the non-sentinel record count nor
broadcasts from one) raises an uncaught ValueError that aborts open, as
the concrete input of the second conjunct shows. -/
theorem c4_overlay_error_amended :
    (∀ (sortname : String) (fs : SortDirFS) (tsq : List IndexRecord),
      fs.listing = .error () → applySortOverlay sortname fs tsq = .ok tsq) ∧
    applySortOverlay "PLX" c4Fs c4Tsq = .error .valueError := by
  constructor
  · intro sortname fs tsq h
    unfold applySortOverlay
    split
    · rfl
    · rw [h]
  · rfl

theorem c4_overlay_error_amended_witness :
    c4FsErr.listing = .error () ∧
    applySortOverlay "PLX" c4FsErr c4Tsq = .ok c4Tsq :=
  ⟨rfl, c4_overlay_error_amended.1 "PLX" c4FsErr c4Tsq rfl⟩

/-- C5: when a sort-overlay file is found and its post-header label
count equals the number of non-sentinel records, the overlay succeeds
and yields records in which every record except the first and the last
carries the corresponding label byte (cast int8 to uint16) in file order
as its sort label, the first and last (sentinel) records are unchanged,
and every other field of every record is unchanged. -/
theorem c5_sort_overlay_applied (sortname : String) (fs : SortDirFS)
    (tsq : List IndexRecord) (files : List String) (f : String)
    (hname : sortname ≠ "") (hlist : fs.listing = .ok files)
    (hfind : files.find? isSortResultFile = some f)
    (hlen : ((fs.fileBytes f).drop 1024).length = tsq.length - 2)
    (hn : 2 ≤ tsq.length) :
    applySortOverlay sortname fs tsq =
      .ok (overwriteSortcodes tsq ((fs.fileBytes f).drop 1024)) ∧
    (overwriteSortcodes tsq ((fs.fileBytes f).drop 1024)).length = tsq.length ∧
    (overwriteSortcodes tsq ((fs.fileBytes f).drop 1024)).getD 0 default
      = tsq.getD 0 default ∧
    (overwriteSortcodes tsq ((fs.fileBytes f).drop 1024)).getD
        (tsq.length - 1) default
      = tsq.getD (tsq.length - 1) default ∧
    ∀ i, 1 ≤ i → i + 1 < tsq.length →
      (overwriteSortcodes tsq ((fs.fileBytes f).drop 1024)).getD i default
        = { tsq.getD i default with
            sortcode := castInt8ToUint16
              (((fs.fileBytes f).drop 1024).getD (i - 1) 0) } := by
  refine ⟨?_, overwriteSortcodesFrom_length _ _ _ _, ?_, ?_, ?_⟩
  · simp only [applySortOverlay, if_neg hname, hlist, hfind, hlen,
      eq_self_iff_true, if_true]
  · rw [overwriteSortcodes,
      overwriteSortcodesFrom_getD _ _ 0 0 tsq (by omega), if_neg (by omega)]
  · rw [overwriteSortcodes,
      overwriteSortcodesFrom_getD _ _ 0 (tsq.length - 1) tsq (by omega),
      if_neg (by omega)]
  · intro i h1 h2
    rw [overwriteSortcodes,
      overwriteSortcodesFrom_getD _ _ 0 i tsq (by omega), if_pos (by omega)]
    have h3 : 0 + i - 1 = i - 1 := by omega
    rw [h3]

theorem assertAllEqLoop_error_iff {β : Type} [DecidableEq β] (msg : String) :
    ∀ (g0 : β) (l : List β),
    (assertAllEqLoop msg (some g0) l = .error msg ↔ ∃ g ∈ l, g ≠ g0)
  | g0, [] => by simp [assertAllEqLoop]
  | g0, g :: rest => by
    by_cases h : g0 = g
    · rw [assertAllEqLoop, if_pos h, assertAllEqLoop_error_iff msg g0 rest]
      subst h
      constructor
      · rintro ⟨x, hx, hne⟩
        exact ⟨x, by simp [hx], hne⟩
      · rintro ⟨x, hx, hne⟩
        rcases (List.mem_cons).1 hx with h1 | h1
        · exact absurd h1 hne
        · exact ⟨x, h1, hne⟩
    · rw [assertAllEqLoop, if_neg h]
      constructor
      · intro _
        exact ⟨g, by simp, fun hc => h hc.symm⟩
      · intro _
        rfl

theorem assertAllEqLoop_ok_or {β : Type} [DecidableEq β] (msg : String) :
    ∀ (g0 : β) (l : List β),
    assertAllEqLoop msg (some g0) l = .error msg ∨
      assertAllEqLoop msg (some g0) l = .ok (some g0)
  | g0, [] => .inr rfl
  | g0, g :: rest => by
    by_cases h : g0 = g
    · rw [assertAllEqLoop, if_pos h]
      exact assertAllEqLoop_ok_or msg g0 rest
    · rw [assertAllEqLoop, if_neg h]
      exact .inl rfl

theorem assertAllEqLoop_ok_iff {β : Type} [DecidableEq β] (msg : String)
    (g0 : β) (l : List β) :
    (∃ acc, assertAllEqLoop msg (some g0) l = .ok acc) ↔ ∀ g ∈ l, g = g0 := by
  constructor
  · rintro ⟨acc, hacc⟩ g hg
    by_contra hne
    have := (assertAllEqLoop_error_iff msg g0 l).2 ⟨g, hg, hne⟩
    rw [this] at hacc
    cases hacc
  · intro hall
    rcases assertAllEqLoop_ok_or msg g0 l with h | h
    · have := (assertAllEqLoop_error_iff msg g0 l).1 h
      rcases this with ⟨g, hg, hne⟩
      exact absurd (hall g hg) hne
    · exact ⟨some g0, h⟩

/-- C6: with multiple segments the descriptor file is parsed once per
segment (one parse result per segment name), and the open-time check
fails loudly with the assertion message exactly when some segment's
parsed channel-group descriptor list is not structurally equal to the
first segment's; it completes exactly when every list equals the
first. -/
theorem c6_descriptor_consistency (read_tbk : String → List ChanGroupInfo)
    (s0 : String) (rest : List String) :
    (parseAllSegments read_tbk (s0 :: rest)).length = (s0 :: rest).length ∧
    (checkTbkAcrossSegments (parseAllSegments read_tbk (s0 :: rest)) =
        .error "Channels differ across segments" ↔
      ∃ s ∈ rest, read_tbk s ≠ read_tbk s0) ∧
    ((∃ acc, checkTbkAcrossSegments (parseAllSegments read_tbk (s0 :: rest)) =
        .ok acc) ↔
      ∀ s ∈ rest, read_tbk s = read_tbk s0) := by
  refine ⟨by simp [parseAllSegments], ?_, ?_⟩
  · rw [parseAllSegments, List.map_cons, checkTbkAcrossSegments, assertAllEqLoop,
      assertAllEqLoop_error_iff]
    constructor
    · rintro ⟨g, hg, hne⟩
      rcases List.mem_map.1 hg with ⟨s, hs, rfl⟩
      exact ⟨s, hs, hne⟩
    · rintro ⟨s, hs, hne⟩
      exact ⟨read_tbk s, List.mem_map_of_mem _ hs, hne⟩
  · rw [parseAllSegments, List.map_cons, checkTbkAcrossSegments, assertAllEqLoop,
      assertAllEqLoop_ok_iff]
    constructor
    · intro hall s hs
      exact hall (read_tbk s) (List.mem_map_of_mem _ hs)
    · rintro hall g hg
      rcases List.mem_map.1 hg with ⟨s, hs, rfl⟩
      exact hall s hs

theorem c6_descriptor_consistency_witness :
    ((fun s => if s = "Block-1" then [c6Group 4] else [c6Group 8])
        "Block-2" ≠
      (fun s => if s = "Block-1" then [c6Group 4] else [c6Group 8])
        "Block-1") ∧
    (checkTbkAcrossSegments (parseAllSegments
      (fun s => if s = "Block-1" then [c6Group 4] else [c6Group 8])
      ("Block-1" :: ["Block-2"])) =
        .error "Channels differ across segments") :=
  ⟨by decide,
    (c6_descriptor_consistency
      (fun s => if s = "Block-1" then [c6Group 4] else [c6Group 8])
      "Block-1" ["Block-2"]).2.1.2 ⟨"Block-2", by simp, by decide⟩⟩

theorem exists_ne_head_iff_pair {β : Type} (g0 : β) (l : List β) :
    (∃ g ∈ l, g ≠ g0) ↔ ∃ x ∈ g0 :: l, ∃ y ∈ g0 :: l, x ≠ y := by
  constructor
  · rintro ⟨g, hg, hne⟩
    exact ⟨g, by simp [hg], g0, by simp, hne⟩
  · rintro ⟨x, hx, y, hy, hne⟩
    by_contra hall
    push_neg at hall
    rcases (List.mem_cons).1 hx with h1 | h1 <;>
      rcases (List.mem_cons).1 hy with h2 | h2
    · exact hne (h1.trans h2.symm)
    · exact hne (by rw [h1, hall y h2])
    · exact hne (by rw [hall x h1, h2])
    · exact hne ((hall x h1).trans (hall y h2).symm)

/-- C8: within one segment, for a stream channel-group with at least one
channel, the open-time indexing pass fails with an assertion error
exactly when two channels of the group imply different sample counts
(points-per-chunk times the number of selected index records), and
completes exactly when the implied sample count is identical across all
channels of the group. -/
theorem c8_sample_count_invariant (info : ChanGroupInfo)
    (tsq : List IndexRecord) (hpos : 1 ≤ info.numChan) :
    (checkStreamLengths info tsq = .error "AssertionError" ↔
      ∃ c1 ∈ chanIds info, ∃ c2 ∈ chanIds info,
        chanSampleCount info tsq c1 ≠ chanSampleCount info tsq c2) ∧
    ((∃ acc, checkStreamLengths info tsq = .ok acc) ↔
      ∀ c1 ∈ chanIds info, ∀ c2 ∈ chanIds info,
        chanSampleCount info tsq c1 = chanSampleCount info tsq c2) := by
  obtain ⟨t, ht⟩ : ∃ t, chanIds info = 1 :: t := by
    rcases Nat.exists_eq_add_of_le hpos with ⟨n, hn⟩
    refine ⟨(List.range n).map (fun c => c + 1 + 1), ?_⟩
    rw [chanIds, hn, Nat.add_comm, List.range_succ_eq_map]
    simp [List.map_map, Function.comp]
  rw [checkStreamLengths, ht, List.map_cons, assertAllEqLoop]
  constructor
  · rw [assertAllEqLoop_error_iff]
    rw [exists_ne_head_iff_pair (chanSampleCount info tsq 1)
      (t.map (chanSampleCount info tsq)), ← List.map_cons]
    constructor
    · rintro ⟨x, hx, y, hy, hne⟩
      rcases List.mem_map.1 hx with ⟨c1, hc1, rfl⟩
      rcases List.mem_map.1 hy with ⟨c2, hc2, rfl⟩
      exact ⟨c1, hc1, c2, hc2, hne⟩
    · rintro ⟨c1, hc1, c2, hc2, hne⟩
      exact ⟨chanSampleCount info tsq c1, List.mem_map_of_mem _ hc1,
        chanSampleCount info tsq c2, List.mem_map_of_mem _ hc2, hne⟩
  · rw [assertAllEqLoop_ok_iff]
    constructor
    · intro hall c1 hc1 c2 hc2
      have h1 := hall (chanSampleCount info tsq c1)
      have h2 := hall (chanSampleCount info tsq c2)
      rcases (List.mem_cons).1 hc1 with e1 | e1 <;>
        rcases (List.mem_cons).1 hc2 with e2 | e2
      · rw [e1, e2]
      · rw [e1, h2 (List.mem_map_of_mem _ e2)]
      · rw [e2, h1 (List.mem_map_of_mem _ e1)]
      · rw [h1 (List.mem_map_of_mem _ e1), h2 (List.mem_map_of_mem _ e2)]
    · intro hall g hg
      rcases List.mem_map.1 hg with ⟨c, hc, rfl⟩
      exact hall c (by simp [hc]) 1 (by simp)

theorem c8_sample_count_invariant_witness :
    (1 ≤ c8Info.numChan ∧
      chanSampleCount c8Info c8Tsq 1 ≠ chanSampleCount c8Info c8Tsq 2) ∧
    checkStreamLengths c8Info c8Tsq = .error "AssertionError" :=
  ⟨⟨by decide, by decide⟩,
    (c8_sample_count_invariant c8Info c8Tsq (by decide)).1.2
      ⟨1, by decide, 2, by decide, by decide⟩⟩

/-- C7: for an index with at least the two records python indexes,
timestamp extraction always succeeds — a missing sentinel is never
fatal; the start timestamp is the second record's timestamp exactly when
that record's name equals the start-of-block marker and is undefined
(none) otherwise, and symmetrically the stop timestamp is taken from the
last record exactly when its name equals the end-of-block marker. -/
theorem c7_sentinel_timestamps (tsq : List IndexRecord) (h : 2 ≤ tsq.length) :
    ∃ start stop, segTimes tsq = .ok (start, stop) ∧
    (∀ t, start = some t ↔
      ((tsq.getD 1 default).evname = [EVMARK_STARTBLOCK] ∧
        t = (tsq.getD 1 default).timestamp)) ∧
    (start = none ↔ (tsq.getD 1 default).evname ≠ [EVMARK_STARTBLOCK]) ∧
    (∀ t, stop = some t ↔
      ((tsq.getD (tsq.length - 1) default).evname = [EVMARK_STOPBLOCK] ∧
        t = (tsq.getD (tsq.length - 1) default).timestamp)) ∧
    (stop = none ↔
      (tsq.getD (tsq.length - 1) default).evname ≠ [EVMARK_STOPBLOCK]) := by
  refine ⟨_, _, by rw [segTimes, if_pos h], ?_, ?_, ?_, ?_⟩
  · intro t
    by_cases he : (tsq.getD 1 default).evname = [EVMARK_STARTBLOCK] <;>
      simp [he, eq_comm]
  · by_cases he : (tsq.getD 1 default).evname = [EVMARK_STARTBLOCK] <;>
      simp [he]
  · intro t
    by_cases he : (tsq.getD (tsq.length - 1) default).evname =
        [EVMARK_STOPBLOCK] <;> simp [he, eq_comm]
  · by_cases he : (tsq.getD (tsq.length - 1) default).evname =
        [EVMARK_STOPBLOCK] <;> simp [he]

theorem c7_sentinel_timestamps_witness :
    2 ≤ c7Tsq.length ∧
    ∃ start stop, segTimes c7Tsq = .ok (start, stop) ∧
      (∀ t, start = some t ↔
        ((c7Tsq.getD 1 default).evname = [EVMARK_STARTBLOCK] ∧
          t = (c7Tsq.getD 1 default).timestamp)) ∧
      (start = none ↔ (c7Tsq.getD 1 default).evname ≠ [EVMARK_STARTBLOCK]) ∧
      (∀ t, stop = some t ↔
        ((c7Tsq.getD (c7Tsq.length - 1) default).evname = [EVMARK_STOPBLOCK] ∧
          t = (c7Tsq.getD (c7Tsq.length - 1) default).timestamp)) ∧
      (stop = none ↔
        (c7Tsq.getD (c7Tsq.length - 1) default).evname ≠ [EVMARK_STOPBLOCK]) :=
  ⟨by decide, c7_sentinel_timestamps c7Tsq (by decide)⟩

/-- C9: when the input path is neither an existing directory nor an
existing file, init raises the NotFound error (a ValueError in the code)
and no reader state or header is produced. -/
theorem c9_notfound (p : PathInfo) (name sortname : String)
    (hdir : p.isDir = false) (hfile : p.isFile = false) :
    tdtInit p name sortname = .error .valueError := by
  simp [tdtInit, hdir, hfile]

theorem c9_notfound_witness :
    (PathInfo.mk false false "x").isDir = false ∧
    (PathInfo.mk false false "x").isFile = false ∧
    tdtInit (PathInfo.mk false false "x") "x" "" = .error .valueError :=
  ⟨rfl, rfl, c9_notfound (PathInfo.mk false false "x") "x" "" rfl rfl⟩

theorem getMask_event (t0 : ℚ) (store : List Nat) (r : IndexRecord) :
    getMask EVTYPE_STRON store 0 none none none t0 r =
      decide (r.evtype = EVTYPE_STRON ∧ r.evname = store ∧ r.channel = 0) := by
  by_cases h1 : r.evtype = EVTYPE_STRON <;>
    by_cases h2 : r.evname = store <;>
    by_cases h3 : r.channel = 0 <;>
    simp [getMask, h1, h2, h3]

/-- C10: every event channel is published in the header with channel id
1, while the event count, the event timestamps and the labels are
computed over exactly the index records with onset event-type, matching
store name, and channel field equal to 0; a record with any other
channel value never satisfies the selection. -/
theorem c10_event_channel_zero :
    (∀ groups : List ChanGroupInfo,
      ∀ e ∈ eventChannelsOfHeader groups, e.2.1 = 1) ∧
    (∀ (t0 : ℚ) (tsq : List IndexRecord) (store : List Nat),
      eventCount t0 tsq store = (tsq.filter (fun r =>
        decide (r.evtype = EVTYPE_STRON ∧ r.evname = store ∧
          r.channel = 0))).length ∧
      eventTimestamps t0 tsq store = (tsq.filter (fun r =>
        decide (r.evtype = EVTYPE_STRON ∧ r.evname = store ∧
          r.channel = 0))).map (fun r => r.timestamp - t0) ∧
      eventLabels t0 tsq store = (tsq.filter (fun r =>
        decide (r.evtype = EVTYPE_STRON ∧ r.evname = store ∧
          r.channel = 0))).map (fun r => toString r.offset) ∧
      ∀ r ∈ tsq, r.channel ≠ 0 →
        getMask EVTYPE_STRON store 0 none none none t0 r = false) := by
  have hf : ∀ (t0 : ℚ) (store : List Nat) (tsq : List IndexRecord),
      tsq.filter (getMask EVTYPE_STRON store 0 none none none t0) =
      tsq.filter (fun r =>
        decide (r.evtype = EVTYPE_STRON ∧ r.evname = store ∧ r.channel = 0)) := by
    intro t0 store tsq
    apply List.filter_congr
    intro r _
    exact getMask_event t0 store r
  constructor
  · intro groups e he
    rw [eventChannelsOfHeader] at he
    rcases List.mem_map.1 he with ⟨g, _, rfl⟩
    rfl
  · intro t0 tsq store
    refine ⟨?_, ?_, ?_, ?_⟩
    · rw [eventCount, hf]
    · rw [eventTimestamps, hf]
    · rw [eventLabels, hf]
    · intro r _ hch
      rw [getMask_event]
      simp [hch]

theorem c10_event_channel_zero_witness :
    (∀ e ∈ eventChannelsOfHeader [c10Group], e.2.1 = 1) ∧
    eventCount 0 c10Tsq [80, 116, 114, 49] = (c10Tsq.filter (fun r =>
      decide (r.evtype = EVTYPE_STRON ∧ r.evname = [80, 116, 114, 49] ∧
        r.channel = 0))).length ∧
    getMask EVTYPE_STRON [80, 116, 114, 49] 0 none none none 0
      (c10Tsq.getD 1 default) = false :=
  ⟨c10_event_channel_zero.1 [c10Group],
   (c10_event_channel_zero.2 0 c10Tsq [80, 116, 114, 49]).1,
   (c10_event_channel_zero.2 0 c10Tsq [80, 116, 114, 49]).2.2.2
     (c10Tsq.getD 1 default) (by decide) (by decide)⟩

theorem c5_sort_overlay_applied_witness :
    applySortOverlay "PLX" c5Fs c5Tsq =
      .ok (overwriteSortcodes c5Tsq
        ((c5Fs.fileBytes "spikes.SortResult").drop 1024)) ∧
    (overwriteSortcodes c5Tsq
      ((c5Fs.fileBytes "spikes.SortResult").drop 1024)).getD 0 default
        = c5Tsq.getD 0 default :=
  have h := c5_sort_overlay_applied "PLX" c5Fs c5Tsq
    ["notes.txt", "spikes.SortResult"] "spikes.SortResult"
    (by decide) rfl (by rfl) (by rfl) (by decide)
  ⟨h.1, h.2.2.1⟩
